import Mathlib

/-!
Verification of the Archlyze folder-import / ignore-filtering pipeline
(`src/components/FolderImportModal.tsx`).

The gitignore-style pattern matcher itself lives in the third-party
`ignore` npm package, which is not part of the repository sources; its
behaviour is modelled here from the specification's description of
`build` / `isIgnored` (glob tokens, anchoring, negation, last-match-wins).
Everything else (default pattern list, candidate filtering, extension
tallying, default selection, final import set, display sorting) is
translated directly from `FolderImportModal.tsx`.
-/

namespace Archlyze

/-- Splits a character list on a separator, JS-`String.split` style:
the result always has at least one (possibly empty) group, and a
trailing separator yields a trailing empty group. -/
def splitOnChar (sep : Char) : List Char → List (List Char)
  | [] => [[]]
  | c :: rest =>
    if c = sep then [] :: splitOnChar sep rest
    else
      match splitOnChar sep rest with
      | [] => [[c]]
      | g :: gs => (c :: g) :: gs

theorem splitOnChar_ne_nil (sep : Char) (l : List Char) : splitOnChar sep l ≠ [] := by
  induction l with
  | nil => simp [splitOnChar]
  | cons c rest ih =>
    simp only [splitOnChar]
    split
    · simp
    · cases h : splitOnChar sep rest with
      | nil => simp
      | cons g gs => simp

theorem splitOnChar_of_not_mem (sep : Char) (l : List Char) (h : sep ∉ l) :
    splitOnChar sep l = [l] := by
  induction l with
  | nil => rfl
  | cons c rest ih =>
    have hc : ¬ c = sep := fun hceq => h (by simp [hceq])
    have hr : sep ∉ rest := fun hmem => h (List.mem_cons_of_mem _ hmem)
    simp only [splitOnChar, if_neg hc, ih hr]

/-- Modelled from the spec: reads the contents of a glob character class
`[...]` after the opening bracket, returning the class body and the rest
of the pattern after the closing `]`, or `none` when the class is
unterminated (the one catastrophically malformed input). -/
def readClass : List Char → Option (List Char × List Char)
  | [] => none
  | c :: rest =>
    if c = ']' then some ([], rest)
    else
      match readClass rest with
      | none => none
      | some (cls, r) => some (c :: cls, r)

theorem readClass_length : ∀ (l cls r : List Char),
    readClass l = some (cls, r) → r.length < l.length := by
  intro l
  induction l with
  | nil => intro cls r h; simp [readClass] at h
  | cons c rest ih =>
    intro cls r h
    simp only [readClass] at h
    split at h
    · cases h; simp
    · cases hrec : readClass rest with
      | none => rw [hrec] at h; cases h
      | some p =>
        rw [hrec] at h
        cases h
        have := ih p.1 p.2 (by rw [hrec])
        simpa [List.length_cons] using Nat.lt_trans this (Nat.lt_succ_self _)

/-- Modelled from the spec: membership test of a character against the
items of a character class body (single characters and `a-b` ranges). -/
def matchItems : List Char → Char → Bool
  | a :: '-' :: b :: rest, c => (decide (a ≤ c) && decide (c ≤ b)) || matchItems rest c
  | a :: rest, c => (a == c) || matchItems rest c
  | [], _ => false

/-- Modelled from the spec: a character class `[...]` matches a single
character, with leading `!` or `^` negating the class. -/
def matchClass (cls : List Char) (c : Char) : Bool :=
  match cls with
  | '!' :: rest => !(matchItems rest c)
  | '^' :: rest => !(matchItems rest c)
  | _ => matchItems cls c

/-- Modelled from the spec: glob matching with `*` (any run of
characters except `/`), `**` (any run including `/`), `?` (single
non-`/` character), character classes `[...]`, and literal characters. -/
def globMatch : List Char → List Char → Bool
  | [], [] => true
  | [], _ :: _ => false
  | '*' :: '*' :: ps, [] => globMatch ps []
  | '*' :: '*' :: ps, c :: s => globMatch ps (c :: s) || globMatch ('*' :: '*' :: ps) s
  | '*' :: ps, [] => globMatch ps []
  | '*' :: ps, c :: s => globMatch ps (c :: s) || ((!(c = '/' : Bool)) && globMatch ('*' :: ps) s)
  | '?' :: _, [] => false
  | '?' :: ps, c :: s => (!(c = '/' : Bool)) && globMatch ps s
  | '[' :: ps, s =>
    (match hrc : readClass ps with
     | none => false
     | some (cls, rest) =>
       match s with
       | [] => false
       | c :: s2 => (!(c = '/' : Bool)) && matchClass cls c && globMatch rest s2)
  | p :: ps, c :: s => (p == c) && globMatch ps s
  | _ :: _, [] => false
termination_by p s => p.length + s.length
decreasing_by
  all_goals simp_arith [*]
  all_goals have h9 := readClass_length _ _ _ hrc
  all_goals simp at h9 ⊢
  all_goals omega

/-- Modelled from the spec: a parsed ignore rule
`{ glob, anchoredToRoot, directoryOnly, negated }` (the `sourceOrder`
field of the spec's record is represented by the rule's position in the
rule list). -/
structure Rule where
  glob : List Char
  anchoredToRoot : Bool
  directoryOnly : Bool
  negated : Bool
deriving DecidableEq

/-- Modelled from the spec: strips a leading `!` negation marker. -/
def stripNeg : List Char → Bool × List Char
  | '!' :: rest => (true, rest)
  | l => (false, l)

/-- Modelled from the spec: strips a trailing `/` directory anchor. -/
def stripDir (l : List Char) : Bool × List Char :=
  if l.getLast? = some '/' then (true, l.dropLast) else (false, l)

/-- Modelled from the spec: strips a leading `/` root anchor. -/
def stripRoot : List Char → Bool × List Char
  | '/' :: rest => (true, rest)
  | l => (false, l)

/-- Modelled from the spec: parses one line of a pattern source into a
rule; blank lines, comment lines (leading `#`) and lines whose glob is
empty after stripping markers are skipped (`none`). -/
def parseLine (line : List Char) : Option Rule :=
  match line with
  | [] => none
  | '#' :: _ => none
  | _ =>
    let n := stripNeg line
    let d := stripDir n.2
    let a := stripRoot d.2
    if a.2.isEmpty then none
    else some { glob := a.2, anchoredToRoot := a.1, directoryOnly := d.1, negated := n.1 }

/-- Modelled from the spec: parses one raw pattern-source text block
(newline-separated rules) into the ordered rule list, skipping
malformed lines. -/
def parseSource (src : List Char) : List Rule :=
  (splitOnChar '\n' src).filterMap parseLine

/-- Modelled from the spec: parses an ordered list of pattern-source
blocks into the combined ordered rule list (defaults first, then the
discovered ignore-file content). -/
def buildRules (sources : List String) : List Rule :=
  (sources.map (fun s => parseSource s.data)).flatten

/-- Modelled from the spec: scans a pattern line for an unterminated
character class, the only catastrophically malformed input. -/
def hasUntermClass : List Char → Bool
  | [] => false
  | '[' :: rest =>
    (match hrc : readClass rest with
     | none => true
     | some (_, r) => hasUntermClass r)
  | _ :: rest => hasUntermClass rest
termination_by l => l.length
decreasing_by
  all_goals simp_arith [*]
  all_goals have h9 := readClass_length _ _ _ hrc
  all_goals omega

/-- Modelled from the spec: the error for catastrophically malformed
pattern-source input. -/
inductive PatternParseError where
  | unterminatedClass
deriving DecidableEq

/-- Modelled from the spec: all lines of all pattern-source blocks. -/
def sourceLines (sources : List String) : List (List Char) :=
  (sources.map (fun s => splitOnChar '\n' s.data)).flatten

/-- Modelled from the spec: `build` turns the ordered pattern sources
into a compiled matcher (here: the ordered rule list), failing with
`PatternParseError` only for catastrophically malformed input
(an unterminated character class); ordinary malformed lines are
silently skipped by `parseLine`. -/
def build (sources : List String) : Except PatternParseError (List Rule) :=
  if (sourceLines sources).any hasUntermClass then .error .unterminatedClass
  else .ok (buildRules sources)

/-- Modelled from the spec: for an anchored rule, tries the glob against
the full relative path truncated at each depth (the path itself or any
ancestor directory); a directory-only rule may only match a proper
ancestor directory, never the full path. -/
def anchoredMatch (g : List Char) (dirOnly : Bool) (acc : List Char) :
    List (List Char) → Bool
  | [] => false
  | seg :: rest =>
    let path := if acc.isEmpty then seg else acc ++ '/' :: seg
    (globMatch g path && (!dirOnly || !rest.isEmpty)) || anchoredMatch g dirOnly path rest

/-- Modelled from the spec: for a rule whose glob has no `/`, tries the
glob against every path segment (basename at any depth); a
directory-only rule may only match a non-final segment. -/
def segAnyMatch (g : List Char) (dirOnly : Bool) : List (List Char) → Bool
  | [] => false
  | seg :: rest =>
    (globMatch g seg && (!dirOnly || !rest.isEmpty)) || segAnyMatch g dirOnly rest

/-- Modelled from the spec: whether one rule matches a path given as its
`/`-separated segments.  A rule whose glob contains `/` (or that is
root-anchored) is matched against the full relative path from the root;
a rule with no `/` in its glob is matched against the basename at any
depth. -/
def ruleMatches (r : Rule) (segs : List (List Char)) : Bool :=
  if r.anchoredToRoot || r.glob.contains '/' then
    anchoredMatch r.glob r.directoryOnly [] segs
  else
    segAnyMatch r.glob r.directoryOnly segs

/-- Modelled from the spec: `isIgnored` evaluates all parsed rules in
source order; each matching rule overwrites the current verdict with
`!negated`, so the last matching rule wins; no match at all gives
`false`. -/
def isIgnored (rules : List Rule) (path : List Char) : Bool :=
  let segs := splitOnChar '/' path
  rules.foldl (fun st r => if ruleMatches r segs then !r.negated else st) false

/-- String-level wrapper of `isIgnored`. -/
def isIgnoredStr (rules : List Rule) (p : String) : Bool :=
  isIgnored rules p.data

/-- The built-in default pattern source of `FolderImportModal.tsx`
(lines 34–37): the array handed to `ignore().add(...)` before any
discovered `.gitignore` content. -/
def defaultPatterns : List String :=
  [".git", "node_modules", "target", "dist", "build", "coverage",
   ".DS_Store", "*.log", "*.lock", "package-lock.json", "yarn.lock"]

/-- A candidate file as seen by `FolderImportModal.tsx`: the platform
`webkitRelativePath` (root folder included) and the file `name` (final
path segment). -/
structure ProjFile where
  webkitRelativePath : String
  name : String
deriving DecidableEq

/-- `FolderImportModal.tsx` lines 50–52: the path used for ignore
matching is `webkitRelativePath.split('/')` with the top folder name
removed, re-joined with `/`. -/
def relativeOf (p : List Char) : List Char :=
  List.intercalate ['/'] ((splitOnChar '/' p).drop 1)

/-- `FolderImportModal.tsx` lines 46–55 (`allowedFiles`): when
`respectGitIgnore` is off, all files pass; otherwise a file passes iff
its stripped relative path is non-empty (JS truthiness of the string)
and the ignore filter does not ignore it. -/
def allowedFiles (respectGitIgnore : Bool) (rules : List Rule) (files : List ProjFile) :
    List ProjFile :=
  if respectGitIgnore then
    files.filter (fun f =>
      let rel := relativeOf f.webkitRelativePath.data
      !rel.isEmpty && !isIgnored rules rel)
  else files

/-- `FolderImportModal.tsx` line 105: `totalIgnored = files.length -
allowedFiles.length`. -/
def totalIgnored (respectGitIgnore : Bool) (rules : List Rule) (files : List ProjFile) : Nat :=
  files.length - (allowedFiles respectGitIgnore rules files).length

/-- `FolderImportModal.tsx` lines 61 and 88: the extension token of a
file name: `'.' + name.split('.').pop()` when the name contains a dot,
the sentinel `no-ext` otherwise. -/
def extToken (name : List Char) : List Char :=
  if name.contains '.' then '.' :: ((splitOnChar '.' name).getLast?.getD [])
  else ("no-ext").data

/-- String-level wrapper of `extToken`. -/
def extTokenStr (name : String) : String :=
  String.mk (extToken name.data)

/-- One step of the extension tally of `FolderImportModal.tsx` lines
59–63: `counts[ext] = (counts[ext] || 0) + 1`, with JS-object insertion
order (first occurrence first). -/
def bump (m : List (String × Nat)) (k : String) : List (String × Nat) :=
  match m with
  | [] => [(k, 1)]
  | (k2, n) :: rest => if k2 = k then (k2, n + 1) :: rest else (k2, n) :: bump rest k

/-- `FolderImportModal.tsx` lines 58–65 (`availableExtensions`): counts
of extension tokens over the allowed files, keyed in first-occurrence
order. -/
def tallyExtensions (files : List ProjFile) : List (String × Nat) :=
  files.foldl (fun m f => bump m (extTokenStr f.name)) []

/-- `FolderImportModal.tsx` line 71: the fixed allow-list of common
source/config extensions used for the default selection. -/
def commonCodeExts : List String :=
  [".rs", ".js", ".ts", ".jsx", ".tsx", ".py", ".go", ".java", ".c", ".cpp", ".h",
   ".css", ".html", ".vue", ".svelte", ".json", ".toml", ".md"]

/-- `FolderImportModal.tsx` lines 68–83: the default selection keeps the
tally keys that are in the allow-list (the extra `.toml` / `.json`
checks of line 75 are kept verbatim). -/
def defaultSelection (tally : List (String × Nat)) : List String :=
  (tally.map Prod.fst).filter
    (fun ext => commonCodeExts.contains ext || ext == ".toml" || ext == ".json")

/-- `FolderImportModal.tsx` lines 86–91 (`finalFilesToImport`): the
allowed files whose extension token is in the selection set. -/
def resolveImportSet (allowed : List ProjFile) (selection : List String) : List ProjFile :=
  allowed.filter (fun f => selection.contains (extTokenStr f.name))

/-- `FolderImportModal.tsx` lines 194–196: the extension chips are the
tally entries sorted with the comparator `(a, b) => b[1] - a[1]`, i.e. a
stable sort by descending count only. -/
def displayEntries (tally : List (String × Nat)) : List (String × Nat) :=
  List.insertionSort (fun a b => b.2 ≤ a.2) tally

/-- Lexicographic order on character lists, used only to state the
spec's tie-break by ascending extension token. -/
def charsLe : List Char → List Char → Bool
  | [], _ => true
  | _ :: _, [] => false
  | a :: as, b :: bs => if a = b then charsLe as bs else decide (a < b)

/-- Modelled from the spec (for comparison with `displayEntries`): the
display order the spec describes, sorted by descending count with ties
broken by ascending extension token. -/
def displayEntriesSpec (tally : List (String × Nat)) : List (String × Nat) :=
  List.insertionSort
    (fun a b => b.2 < a.2 ∨ (a.2 = b.2 ∧ charsLe a.1.data b.1.data = true)) tally

/-- The verdict of the last rule (in source order) that matches the
path: `!negated` of that rule, or `false` when no rule matches. -/
def lastMatchVerdict (rules : List Rule) (path : List Char) : Bool :=
  match (rules.filter (fun r => ruleMatches r (splitOnChar '/' path))).getLast? with
  | none => false
  | some r => !r.negated

theorem foldl_verdict (segs : List (List Char)) :
    ∀ (rules : List Rule) (st : Bool),
      rules.foldl (fun st r => if ruleMatches r segs then !r.negated else st) st
        = match (rules.filter (fun r => ruleMatches r segs)).getLast? with
          | none => st
          | some r => !r.negated := by
  intro rules
  induction rules with
  | nil => intro st; rfl
  | cons r rs ih =>
    intro st
    rw [List.foldl_cons, ih]
    by_cases hm : ruleMatches r segs
    · simp only [List.filter_cons, hm, if_pos, ite_true]
      cases hf : rs.filter (fun r => ruleMatches r segs) with
      | nil => simp [hf]
      | cons x xs =>
        simp only [hf, List.getLast?_cons_cons]
        cases hgl : (x :: xs).getLast? with
        | none => simp at hgl
        | some y => rfl
    · simp only [List.filter_cons, hm, ite_false, if_neg hm]
      simp

/-- C1: for every ordered rule list and every relative path, `isIgnored`
(the in-order fold over the parsed rules) agrees with the verdict of the
last rule whose glob matches the path, so a later negated rule
re-includes a path excluded by an earlier rule; in particular, for the
pattern list `["*.log", "!keep.log"]`, `"keep.log"` is not ignored and
`"debug.log"` is. -/
theorem claim_C1_last_match_wins :
    (∀ (rules : List Rule) (path : List Char),
      isIgnored rules path = lastMatchVerdict rules path) ∧
    isIgnoredStr (buildRules ["*.log", "!keep.log"]) "keep.log" = false ∧
    isIgnoredStr (buildRules ["*.log", "!keep.log"]) "debug.log" = true := by
  refine ⟨fun rules path => ?_, ?_, ?_⟩
  · simpa only [isIgnored, lastMatchVerdict] using
      foldl_verdict (splitOnChar '/' path) rules false
  · simp +decide [isIgnoredStr, isIgnored, buildRules, parseSource, splitOnChar, parseLine,
      stripNeg, stripDir, stripRoot, ruleMatches, anchoredMatch, segAnyMatch, globMatch,
      readClass, matchClass, matchItems]
  · simp +decide [isIgnoredStr, isIgnored, buildRules, parseSource, splitOnChar, parseLine,
      stripNeg, stripDir, stripRoot, ruleMatches, anchoredMatch, segAnyMatch, globMatch,
      readClass, matchClass, matchItems]

/-- C2: the pattern `"build/"` (directory-only, not root-anchored)
ignores both `"build/output.txt"` and `"src/build/output.txt"`, while
the root-anchored `"/build/"` ignores `"build/output.txt"` but not
`"src/build/output.txt"`. -/
theorem claim_C2_anchor_semantics :
    isIgnoredStr (buildRules ["build/"]) "build/output.txt" = true ∧
    isIgnoredStr (buildRules ["build/"]) "src/build/output.txt" = true ∧
    isIgnoredStr (buildRules ["/build/"]) "build/output.txt" = true ∧
    isIgnoredStr (buildRules ["/build/"]) "src/build/output.txt" = false := by
  refine ⟨?_, ?_, ?_, ?_⟩ <;>
    simp +decide [isIgnoredStr, isIgnored, buildRules, parseSource, splitOnChar, parseLine,
      stripNeg, stripDir, stripRoot, ruleMatches, anchoredMatch, segAnyMatch, globMatch,
      readClass, matchClass, matchItems]

/-- C3: with an empty pattern source no rule matches, so every path is
not ignored, and filtering a candidate list whose stripped relative
paths are all non-empty is the identity. -/
theorem claim_C3_empty_pattern_identity :
    (∀ path : List Char, isIgnored (buildRules []) path = false) ∧
    (∀ files : List ProjFile,
      (∀ f ∈ files, (relativeOf f.webkitRelativePath.data).isEmpty = false) →
      allowedFiles true (buildRules []) files = files) := by
  constructor
  · intro path; rfl
  · intro files h
    simp only [allowedFiles, if_pos]
    rw [List.filter_eq_self]
    intro f hf
    simp [h f hf, isIgnored, buildRules]

/-- Witness for C3 at a concrete candidate list. -/
theorem claim_C3_empty_pattern_identity_witness :
    (∀ f ∈ [ProjFile.mk ("root/a.rs") ("a.rs"), ProjFile.mk ("root/src/b.py") ("b.py")],
      (relativeOf f.webkitRelativePath.data).isEmpty = false) ∧
    allowedFiles true (buildRules [])
        [ProjFile.mk ("root/a.rs") ("a.rs"), ProjFile.mk ("root/src/b.py") ("b.py")]
      = [ProjFile.mk ("root/a.rs") ("a.rs"), ProjFile.mk ("root/src/b.py") ("b.py")] :=
  ⟨by decide, claim_C3_empty_pattern_identity.2 _ (by decide)⟩

/-- C4: with zero discovered ignore-file content the built-in default
pattern source alone ignores `"node_modules/pkg/index.js"` and leaves
`"src/index.js"` alone; with the defaults removed (an empty pattern
list) the matcher has no special case left and the same path is not
ignored. -/
theorem claim_C4_builtin_defaults :
    isIgnoredStr (buildRules defaultPatterns) "node_modules/pkg/index.js" = true ∧
    isIgnoredStr (buildRules defaultPatterns) "src/index.js" = false ∧
    isIgnoredStr (buildRules []) "node_modules/pkg/index.js" = false := by
  refine ⟨?_, ?_, rfl⟩ <;>
    simp +decide [isIgnoredStr, isIgnored, buildRules, parseSource, splitOnChar, parseLine,
      stripNeg, stripDir, stripRoot, ruleMatches, anchoredMatch, segAnyMatch, globMatch,
      readClass, matchClass, matchItems, defaultPatterns]

theorem relativeOf_no_slash (p : List Char) (h : p.contains '/' = false) :
    relativeOf p = [] := by
  have hmem : '/' ∉ p := by simpa using h
  rw [relativeOf, splitOnChar_of_not_mem _ _ hmem]
  rfl

/-- C5 counterexample: with an empty pattern list, the candidate
`"standalone.js"` (a platform path with no `/`) has `isIgnored = false`
on its stripped relative path, so the subsequence of candidates with
`isIgnored = false` is the whole singleton list, yet `allowedFiles`
returns the empty list. -/
theorem claim_C5_counterexample :
    isIgnored (buildRules [])
        (relativeOf (ProjFile.mk ("standalone.js") ("standalone.js")).webkitRelativePath.data)
      = false ∧
    ([ProjFile.mk ("standalone.js") ("standalone.js")].filter (fun f =>
        !isIgnored (buildRules []) (relativeOf f.webkitRelativePath.data)))
      = [ProjFile.mk ("standalone.js") ("standalone.js")] ∧
    allowedFiles true (buildRules []) [ProjFile.mk ("standalone.js") ("standalone.js")]
      = [] := by
  refine ⟨rfl, ?_, ?_⟩ <;> decide

/-- C5 (amended): with ignore filtering on, `allowedFiles` is the
order-preserving subsequence (sublist) of the candidates whose stripped
relative path is non-empty and not ignored, and its length plus
`totalIgnored` equals the input length. -/
theorem claim_C5_filter_subsequence :
    ∀ (rules : List Rule) (files : List ProjFile),
      (allowedFiles true rules files).Sublist files ∧
      (allowedFiles true rules files).length + totalIgnored true rules files = files.length ∧
      (∀ f, f ∈ allowedFiles true rules files ↔
        f ∈ files ∧ (relativeOf f.webkitRelativePath.data).isEmpty = false ∧
          isIgnored rules (relativeOf f.webkitRelativePath.data) = false) := by
  intro rules files
  have hsub : (allowedFiles true rules files).Sublist files := by
    simp only [allowedFiles, if_pos]
    exact List.filter_sublist files
  refine ⟨hsub, ?_, ?_⟩
  · have hle := hsub.length_le
    simp only [totalIgnored]
    omega
  · intro f
    simp only [allowedFiles, if_pos, List.mem_filter, Bool.and_eq_true, Bool.not_eq_true',
      Bool.not_eq_true]

/-- C10: a candidate whose platform-relative path contains no `/`
separator is always excluded by `allowedFiles` (its stripped relative
path is the empty string, which is falsy), and counted as ignored, for
every rule list — even the empty one. -/
theorem claim_C10_no_slash_always_excluded :
    ∀ (rules : List Rule) (f : ProjFile),
      f.webkitRelativePath.data.contains '/' = false →
      allowedFiles true rules [f] = [] ∧
      totalIgnored true rules [f] = 1 ∧
      (∀ files : List ProjFile, f ∉ allowedFiles true rules files) := by
  intro rules f h
  have hrel : relativeOf f.webkitRelativePath.data = [] := relativeOf_no_slash _ h
  have hpred : ∀ rules : List Rule,
      (!(relativeOf f.webkitRelativePath.data).isEmpty &&
        !isIgnored rules (relativeOf f.webkitRelativePath.data)) = false := by
    intro rules; rw [hrel]; rfl
  refine ⟨?_, ?_, ?_⟩
  · simp only [allowedFiles, if_pos, List.filter_cons, hpred, List.filter_nil]
    simp
  · simp only [totalIgnored, allowedFiles, if_pos, List.filter_cons, hpred, List.filter_nil]
    simp
  · intro files hmem
    simp only [allowedFiles, if_pos, List.mem_filter] at hmem
    rw [hpred] at hmem
    exact absurd hmem.2 (by simp)

/-- Witness for C10 at a concrete slash-free candidate and the default
patterns. -/
theorem claim_C10_no_slash_always_excluded_witness :
    ((("standalone").data.contains '/') = false) ∧
    allowedFiles true (buildRules defaultPatterns)
        [ProjFile.mk ("standalone") ("standalone")] = [] ∧
    totalIgnored true (buildRules defaultPatterns)
        [ProjFile.mk ("standalone") ("standalone")] = 1 :=
  ⟨by decide,
   (claim_C10_no_slash_always_excluded (buildRules defaultPatterns)
      (ProjFile.mk ("standalone") ("standalone")) (by decide)).1,
   (claim_C10_no_slash_always_excluded (buildRules defaultPatterns)
      (ProjFile.mk ("standalone") ("standalone")) (by decide)).2.1⟩

theorem splitOnChar_length_ge_two (sep : Char) (l : List Char) (h : sep ∈ l) :
    2 ≤ (splitOnChar sep l).length := by
  induction l with
  | nil => cases h
  | cons c rest ih =>
    simp only [splitOnChar]
    by_cases hc : c = sep
    · rw [if_pos hc]
      have := splitOnChar_ne_nil sep rest
      have : 1 ≤ (splitOnChar sep rest).length := by
        cases hr : splitOnChar sep rest with
        | nil => exact absurd hr this
        | cons g gs => simp
      simpa using this
    · rw [if_neg hc]
      have hmem : sep ∈ rest := by
        cases List.mem_cons.mp h with
        | inl he => exact absurd he.symm hc
        | inr hm => exact hm
      have h2 := ih hmem
      cases hr : splitOnChar sep rest with
      | nil => exact absurd hr (splitOnChar_ne_nil sep rest)
      | cons g gs => rw [hr] at h2; simpa using h2

theorem getLast?_splitOnChar_append (sep : Char) (t : List Char) :
    ∀ s : List Char,
      (splitOnChar sep (s ++ sep :: t)).getLast? = (splitOnChar sep t).getLast? := by
  intro s
  induction s with
  | nil =>
    simp only [List.nil_append, splitOnChar, if_pos rfl]
    cases hr : splitOnChar sep t with
    | nil => exact absurd hr (splitOnChar_ne_nil sep t)
    | cons g gs => simp [List.getLast?_cons_cons]
  | cons c s ih =>
    simp only [List.cons_append, splitOnChar]
    by_cases hc : c = sep
    · rw [if_pos hc]
      cases hr : splitOnChar sep (s ++ sep :: t) with
      | nil => exact absurd hr (splitOnChar_ne_nil sep _)
      | cons g gs =>
        rw [hr] at ih
        simpa [List.getLast?_cons_cons] using ih
    · rw [if_neg hc]
      have hmem : sep ∈ s ++ sep :: t := by simp
      have h2 := splitOnChar_length_ge_two sep _ hmem
      cases hr : splitOnChar sep (s ++ sep :: t) with
      | nil => exact absurd hr (splitOnChar_ne_nil sep _)
      | cons g gs =>
        rw [hr] at ih h2
        cases gs with
        | nil => simp at h2
        | cons y ys =>
          simpa [List.getLast?_cons_cons] using ih

/-- C6 counterexample: the extension token is not lower-cased by the
code: the name `"A.RS"` yields the token `".RS"`, not `".rs"`. -/
theorem claim_C6_counterexample :
    extTokenStr ("A.RS") = (".RS") ∧ extTokenStr ("A.RS") ≠ (".rs") := by
  refine ⟨?_, ?_⟩ <;> decide

/-- C6 (amended): the extension token is the substring after the last
`.` of the name, prefixed with `.` and with its case preserved (not
lower-cased); a name with no `.` gets the sentinel `no-ext`. -/
theorem claim_C6_extension_token :
    (∀ s t : List Char, t.contains '.' = false →
      extToken (s ++ '.' :: t) = '.' :: t) ∧
    (∀ s : List Char, s.contains '.' = false → extToken s = ("no-ext").data) := by
  constructor
  · intro s t h
    have hnot : '.' ∉ t := by simpa using h
    have hmem : ('.' : Char) ∈ s ++ '.' :: t := by simp
    have hcont : (s ++ '.' :: t).contains '.' = true := by simp
    rw [extToken, if_pos hcont, getLast?_splitOnChar_append,
      splitOnChar_of_not_mem _ _ hnot]
    rfl
  · intro s h
    have hnot : ('.' : Char) ∉ s := by simpa using h
    rw [extToken, if_neg (by simpa using hnot)]

/-- Witness for C6 at the concrete names `"A.RS"` and `"README"`. -/
theorem claim_C6_extension_token_witness :
    ((("RS").data.contains '.' = false) ∧
      extToken (("A").data ++ '.' :: ("RS").data) = '.' :: ("RS").data) ∧
    ((("README").data.contains '.' = false) ∧
      extToken (("README").data) = ("no-ext").data) :=
  ⟨⟨by decide, claim_C6_extension_token.1 (("A").data) (("RS").data) (by decide)⟩,
   ⟨by decide, claim_C6_extension_token.2 (("README").data) (by decide)⟩⟩

/-- The allowed candidate list of the spec's default-selection scenario:
`["a.rs", "b.py", "c.bin", "README"]`. -/
def scenarioFiles : List ProjFile :=
  [ProjFile.mk ("root/a.rs") ("a.rs"), ProjFile.mk ("root/b.py") ("b.py"),
   ProjFile.mk ("root/c.bin") ("c.bin"), ProjFile.mk ("root/README") ("README")]

/-- C7: `defaultSelection` is exactly the intersection of the fixed
allow-list with the tally keys; `resolveImportSet` is an
order-preserving sublist of the allowed candidates; on the scenario
files the selection is `{".rs", ".py"}` and the import set is
`["a.rs", "b.py"]` in original order. -/
theorem claim_C7_default_selection :
    (∀ (tally : List (String × Nat)) (ext : String),
      ext ∈ defaultSelection tally ↔ ext ∈ tally.map Prod.fst ∧ ext ∈ commonCodeExts) ∧
    (∀ (allowed : List ProjFile) (selection : List String),
      (resolveImportSet allowed selection).Sublist allowed) ∧
    defaultSelection (tallyExtensions scenarioFiles) = [(".rs"), (".py")] ∧
    resolveImportSet scenarioFiles [(".rs"), (".py")]
      = [ProjFile.mk ("root/a.rs") ("a.rs"), ProjFile.mk ("root/b.py") ("b.py")] := by
  refine ⟨?_, ?_, ?_, ?_⟩
  · intro tally ext
    simp only [defaultSelection, List.mem_filter, Bool.or_eq_true, beq_iff_eq]
    constructor
    · rintro ⟨hmem, hor⟩
      refine ⟨hmem, ?_⟩
      rcases hor with (hc | rfl) | rfl
      · simpa using hc
      · decide
      · decide
    · rintro ⟨hmem, hin⟩
      exact ⟨hmem, Or.inl (Or.inl (by simpa using hin))⟩
  · intro allowed selection
    exact List.filter_sublist allowed
  · decide
  · decide

/-- C8 counterexample: for allowed files `["b.z", "a.y"]` (DOM insertion
order), the code's display sort leaves the tie between the two
count-one extensions in first-occurrence order `.z, .y`, while the
spec's tie-break by ascending token would give `.y, .z`. -/
theorem claim_C8_counterexample :
    displayEntries (tallyExtensions
        [ProjFile.mk ("root/b.z") ("b.z"), ProjFile.mk ("root/a.y") ("a.y")])
      = [((".z"), 1), ((".y"), 1)] ∧
    displayEntriesSpec (tallyExtensions
        [ProjFile.mk ("root/b.z") ("b.z"), ProjFile.mk ("root/a.y") ("a.y")])
      = [((".y"), 1), ((".z"), 1)] ∧
    displayEntries (tallyExtensions
        [ProjFile.mk ("root/b.z") ("b.z"), ProjFile.mk ("root/a.y") ("a.y")])
      ≠ displayEntriesSpec (tallyExtensions
        [ProjFile.mk ("root/b.z") ("b.z"), ProjFile.mk ("root/a.y") ("a.y")]) := by
  refine ⟨?_, ?_, ?_⟩ <;> decide

instance : IsTotal (String × Nat) (fun a b => b.2 ≤ a.2) :=
  ⟨fun a b => Nat.le_total b.2 a.2⟩

instance : IsTrans (String × Nat) (fun a b => b.2 ≤ a.2) :=
  ⟨fun _ _ _ h1 h2 => Nat.le_trans h2 h1⟩

/-- C8 (amended): the displayed tally is a permutation of the tally
entries sorted by descending count only; ties keep the tally's
first-occurrence order (stable sort), as witnessed on the `["b.z",
"a.y"]` scenario, and the order is a deterministic function of the
tally. -/
theorem claim_C8_display_sorted_by_count :
    (∀ tally : List (String × Nat),
      (displayEntries tally).Perm tally ∧
      List.Sorted (fun a b : String × Nat => b.2 ≤ a.2) (displayEntries tally)) ∧
    displayEntries (tallyExtensions
        [ProjFile.mk ("root/b.z") ("b.z"), ProjFile.mk ("root/a.y") ("a.y")])
      = [((".z"), 1), ((".y"), 1)] := by
  refine ⟨fun tally => ⟨?_, ?_⟩, by decide⟩
  · exact List.perm_insertionSort _ tally
  · exact List.sorted_insertionSort _ tally

/-- C9: `build` fails only for catastrophically malformed pattern-source
input: if no line has an unterminated character class it returns the
parsed rule list (ordinary malformed lines having been silently skipped
by `parseLine`), and whenever it fails some line has an unterminated
character class.  The remaining operations are plain total functions. -/
theorem claim_C9_build_failure_only_unterminated :
    (∀ sources : List String,
      (∀ l ∈ sourceLines sources, hasUntermClass l = false) →
      build sources = .ok (buildRules sources)) ∧
    (∀ (sources : List String) (e : PatternParseError),
      build sources = .error e →
      ∃ l ∈ sourceLines sources, hasUntermClass l = true) := by
  constructor
  · intro sources h
    have : (sourceLines sources).any hasUntermClass = false := by
      simp only [List.any_eq_false]
      intro l hl
      simp [h l hl]
    simp [build, this]
  · intro sources e h
    by_cases hany : (sourceLines sources).any hasUntermClass = true
    · simpa using List.any_eq_true.mp hany
    · simp [build, Bool.eq_false_iff.mpr hany] at h

/-- Witness for C9: a pattern source with a comment, a blank line and an
ordinary malformed line (a bare `!`) still builds successfully. -/
theorem claim_C9_build_failure_only_unterminated_witness :
    (∀ l ∈ sourceLines [("# comment\n\n!\n*.log")], hasUntermClass l = false) ∧
    build [("# comment\n\n!\n*.log")] = .ok (buildRules [("# comment\n\n!\n*.log")]) :=
  ⟨by simp +decide [sourceLines, splitOnChar, hasUntermClass],
   claim_C9_build_failure_only_unterminated.1 _
     (by simp +decide [sourceLines, splitOnChar, hasUntermClass])⟩

end Archlyze
